import Mathlib

/-!
# Verification of `simple_email` (src/simple_email/main.py)

A shallow embedding of the pure computations of the `simple_email` library:
the address helper `parse_email_addr`, the attachment-component helper
`path_to_attachment_components` (with its MIME-type guess), the `Email`
message builder (`__init__`, `add_attachment`, `add_attachment_from_path`,
`__str__`/serialization with base64 transfer encoding), and the pure
argument computation of `EmailClient.send` (sender and recipient
resolution).

Python strings that the code inspects character by character are embedded
as `List Char`; byte payloads as `List Nat` with each element `< 256`;
fallible Python code (undefined names, attribute errors on `None`) as
`Except PyError _`.
-/

namespace SimpleEmail

/-- The whitespace characters stripped by Python's `str.strip()`
(restricted to ASCII, which is all the repository ever manipulates). -/
def isPySpace (c : Char) : Bool :=
  c == ' ' || c == '\t' || c == '\n' || c == '\r' || c == '\x0b' || c == '\x0c'

/-- Python `s.rstrip()`: remove trailing whitespace. -/
def rstrip (s : List Char) : List Char :=
  (s.reverse.dropWhile isPySpace).reverse

/-- Python `s.strip()`: remove leading and trailing whitespace. -/
def stripChars (s : List Char) : List Char :=
  (rstrip s).dropWhile isPySpace

/-- Python `s.split(sep)` for a one-character separator `sep`:
always returns at least one (possibly empty) piece, and a piece for each
occurrence of `sep`.  In particular `"".split(sep) = [""]`. -/
def splitOnChar (sep : Char) : List Char → List (List Char)
  | [] => [[]]
  | c :: rest =>
    match splitOnChar sep rest with
    | [] => [[]]
    | t :: ts => if c = sep then [] :: t :: ts else (c :: t) :: ts

/-- Function `parse_email_addr` (main.py lines 34-39): if the string contains `<`,
`data = email.split('<')` and the result is `data[1].split('>')[0].strip()`
stripped once more on return; otherwise the input is returned stripped.
The index `data[1]` is always in range because `'<'` occurs in the string;
here it is modelled with `getD`/`headD` (see `parse_email_addr_chk` for the
fallible-indexing version, proved equivalent). -/
def parse_email_addr (email : List Char) : List Char :=
  if '<' ∈ email then
    stripChars (stripChars ((splitOnChar '>' (((splitOnChar '<' email)[1]?).getD [])).headD []))
  else stripChars email

/-- Variant of `parse_email_addr` with Python's sequence indexing made fallible:
`data[1]` and `[0]` raise `IndexError` when out of range.  Used to show
the function never raises. -/
def parse_email_addr_chk (email : List Char) : Except String (List Char) :=
  if '<' ∈ email then
    match (splitOnChar '<' email)[1]? with
    | none => .error "IndexError"
    | some between =>
      match (splitOnChar '>' between).head? with
      | none => .error "IndexError"
      | some x => .ok (stripChars (stripChars x))
  else .ok (stripChars email)

/-! ## Lemmas about `dropWhile`, `stripChars` and `splitOnChar` -/

theorem dropWhile_dropWhile (p : Char → Bool) (l : List Char) :
    (l.dropWhile p).dropWhile p = l.dropWhile p := by
  induction l with
  | nil => rfl
  | cons c cs ih =>
    by_cases h : p c
    · simp [List.dropWhile_cons, h, ih]
    · simp [List.dropWhile_cons, h]

theorem head?_dropWhile {p : Char → Bool} {l : List Char} {c : Char}
    (h : (l.dropWhile p).head? = some c) : p c = false := by
  induction l with
  | nil => simp at h
  | cons d ds ih =>
    by_cases hd : p d
    · rw [List.dropWhile_cons_of_pos hd] at h; exact ih h
    · rw [List.dropWhile_cons_of_neg hd] at h
      simp only [List.head?_cons, Option.some.injEq] at h
      subst h
      simpa using hd

theorem mem_dropWhile {p : Char → Bool} {l : List Char} {c : Char}
    (h : c ∈ l.dropWhile p) : c ∈ l :=
  (List.dropWhile_sublist p).mem h

theorem mem_rstrip {s : List Char} {c : Char} (h : c ∈ rstrip s) : c ∈ s := by
  unfold rstrip at h
  rw [List.mem_reverse] at h
  exact List.mem_reverse.mp (mem_dropWhile h)

theorem mem_stripChars {s : List Char} {c : Char} (h : c ∈ stripChars s) : c ∈ s :=
  mem_rstrip (mem_dropWhile h)

theorem dropWhile_eq_self_of_head {p : Char → Bool} {l : List Char}
    (h : ∀ c, l.head? = some c → p c = false) : l.dropWhile p = l := by
  cases l with
  | nil => rfl
  | cons c cs =>
    have := h c rfl
    simp [List.dropWhile_cons, this]

theorem rstrip_stripChars (s : List Char) : rstrip (stripChars s) = stripChars s := by
  obtain ⟨t, ht⟩ :=
    List.dropWhile_suffix (l := (s.reverse.dropWhile isPySpace).reverse) (p := isPySpace)
  unfold stripChars rstrip
  have key : ((s.reverse.dropWhile isPySpace).reverse.dropWhile isPySpace).reverse.dropWhile
        isPySpace
      = ((s.reverse.dropWhile isPySpace).reverse.dropWhile isPySpace).reverse := by
    apply dropWhile_eq_self_of_head
    intro c hc
    have hA : s.reverse.dropWhile isPySpace
        = ((s.reverse.dropWhile isPySpace).reverse.dropWhile isPySpace).reverse
          ++ t.reverse := by
      have h2 := congrArg List.reverse ht
      simpa [List.reverse_append] using h2.symm
    have hhd : (s.reverse.dropWhile isPySpace).head? = some c := by
      rw [hA, List.head?_append, hc]; rfl
    exact head?_dropWhile hhd
  rw [key, List.reverse_reverse]

theorem stripChars_idem (s : List Char) :
    stripChars (stripChars s) = stripChars s := by
  show (rstrip (stripChars s)).dropWhile isPySpace = stripChars s
  rw [rstrip_stripChars]
  show ((rstrip s).dropWhile isPySpace).dropWhile isPySpace = stripChars s
  rw [dropWhile_dropWhile]
  rfl

/-! ## The message model: `Email`, its parts and base64 transfer encoding -/

/-- One part of the multipart message: either the single text body attached
by `Email.__init__` (a `MIMEText(body, body_type, body_encoding)`), or a
binary attachment (a `MIMEBase(maintype, subtype)` whose payload was
base64-encoded in place by `encode_base64` and which carries a
`Content-Disposition: attachment; filename=...` header). -/
inductive MIMEPart : Type
  | text (body body_type body_encoding : String)
  | attachment (maintype subtype : String) (payload : List Char) (filename : String)
deriving DecidableEq, Repr

/-- The `Email` object: its `MIMEMultipart` headers plus the ordered list
of attached parts. -/
structure Email where
  subject : String
  from_addr : String
  to_addr : String
  cc : String
  parts : List MIMEPart
deriving DecidableEq, Repr

/-- Python `to_addr if isinstance(to_addr, str) else ", ".join(to_addr)`
(main.py lines 170-171): a `Union[str, List]` header value. -/
def joinAddrs : String ⊕ List String → String
  | .inl s => s
  | .inr l => String.intercalate ", " l

/-- Constructor `Email.__init__` (main.py 153-174): set the Subject/From/To/Cc headers
and attach the single `MIMEText` body part. -/
def Email.init (from_addr : String) (to_addr : String ⊕ List String)
    (subject body body_type : String) (cc : String ⊕ List String)
    (body_encoding : String) : Email :=
  { subject := subject
    from_addr := from_addr
    to_addr := joinAddrs to_addr
    cc := joinAddrs cc
    parts := [.text body body_type body_encoding] }

/-- The base64 alphabet, sextet value to character. -/
def b64Alphabet : List Char :=
  "ABCDEFGHIJKLMNOPQRSTUVWXYZabcdefghijklmnopqrstuvwxyz0123456789+/".toList

def sextetToChar (n : Nat) : Char := b64Alphabet.getD n 'A'

/-- Index of a character in a list (length of the list when absent). -/
def indexIn (c : Char) : List Char → Nat
  | [] => 0
  | d :: ds => if c = d then 0 else indexIn c ds + 1

def charToSextet (c : Char) : Nat := indexIn c b64Alphabet

/-- Plain base64 of a byte sequence (no line wrapping): three bytes become
four alphabet characters; a final group of one or two bytes is padded
with `=`. -/
def b64encodeRaw : List Nat → List Char
  | [] => []
  | [a] => [sextetToChar (a / 4), sextetToChar (a % 4 * 16), '=', '=']
  | [a, b] =>
    [sextetToChar (a / 4), sextetToChar (a % 4 * 16 + b / 16), sextetToChar (b % 16 * 4), '=']
  | a :: b :: c :: rest =>
    sextetToChar (a / 4) :: sextetToChar (a % 4 * 16 + b / 16) ::
      sextetToChar (b % 16 * 4 + c / 64) :: sextetToChar (c % 64) :: b64encodeRaw rest

/-- Break a character stream into lines of at most 76 characters, each
followed by a newline (the layout `base64.encodebytes` produces,
57 input bytes — 76 output characters — per line). -/
def wrapLines (cs : List Char) : List Char :=
  if h : cs = [] then []
  else cs.take 76 ++ '\n' :: wrapLines (cs.drop 76)
termination_by cs.length
decreasing_by
  have hpos : 0 < cs.length := List.length_pos.mpr h
  simp only [List.length_drop]
  omega

/-- Python `base64.encodebytes`, as used by `email.encoders.encode_base64`:
base64 text wrapped at 76 characters per newline-terminated line. -/
def encodebytes (data : List Nat) : List Char := wrapLines (b64encodeRaw data)

/-- A standard base64 decoder (the inverse direction of the round-trip law):
consumes four characters at a time, honouring `=` padding. -/
def b64decode : List Char → List Nat
  | c1 :: c2 :: c3 :: c4 :: rest =>
    if c3 = '=' then [charToSextet c1 * 4 + charToSextet c2 / 16]
    else if c4 = '=' then
      [charToSextet c1 * 4 + charToSextet c2 / 16,
       charToSextet c2 % 16 * 16 + charToSextet c3 / 4]
    else
      (charToSextet c1 * 4 + charToSextet c2 / 16) ::
        (charToSextet c2 % 16 * 16 + charToSextet c3 / 4) ::
        (charToSextet c3 % 4 * 64 + charToSextet c4) :: b64decode rest
  | _ => []

/-- Method `Email.add_attachment` (main.py 176-193): build a
`MIMEBase(maintype, subtype)`, `set_payload(data)`, `encode_base64` it
(replacing the payload with `base64.encodebytes(data)` and recording the
base64 transfer encoding), add the `Content-Disposition` header with the
file name, and `attach` the part. -/
def Email.add_attachment (self : Email) (data : List Nat)
    (file_name maintype subtype : String) : Email :=
  { self with
    parts := self.parts ++ [.attachment maintype subtype (encodebytes data) file_name] }

/-- One `name: value` header line. -/
def renderHeader (name value : String) : List Char :=
  name.toList ++ ": ".toList ++ value.toList ++ ['\n']

/-- The text rendering of one part inside `Email.__str__`
(`self.email.as_string()`): the part's headers, a blank line, then its
payload — for an attachment, the base64 text produced by `encode_base64`,
verbatim. -/
def serializePart : MIMEPart → List Char
  | .text body body_type body_encoding =>
    renderHeader "Content-Type" ("text/" ++ body_type ++ "; charset=" ++ body_encoding) ++
      '\n' :: body.toList
  | .attachment maintype subtype payload filename =>
    renderHeader "Content-Type" (maintype ++ "/" ++ subtype) ++
      renderHeader "Content-Transfer-Encoding" "base64" ++
      renderHeader "Content-Disposition" ("attachment; filename=\"" ++ filename ++ "\"") ++
      '\n' :: payload

/-- Method `Email.__str__` (main.py 208-209), i.e. `self.email.as_string()`: the
header block, then every part in order, boundary-delimited, with a closing
boundary.  The multipart boundary the MIME encoder chooses is taken as a
parameter (it is the one non-deterministic input). -/
def Email.serialize (self : Email) (boundary : List Char) : List Char :=
  renderHeader "Subject" self.subject ++ renderHeader "From" self.from_addr ++
    renderHeader "To" self.to_addr ++ renderHeader "Cc" self.cc ++
    (self.parts.map
      (fun p => '\n' :: '-' :: '-' :: boundary ++ '\n' :: serializePart p)).flatten ++
    '\n' :: '-' :: '-' :: boundary ++ "--".toList

/-! ## The path helpers and their defect -/

/-- A raised Python exception, as far as this code can raise one. -/
inductive PyError : Type
  | nameError (name : String)
  | attributeError (msg : String)
deriving DecidableEq, Repr

/-- The fragment of Python's `mimetypes.types_map` relevant to this
repository's tests and spec (extension, lowercased, to `type/subtype`). -/
def types_map : List (List Char × String) :=
  [(".csv".toList, "text/csv"), (".txt".toList, "text/plain"),
   (".html".toList, "text/html"), (".png".toList, "image/png"),
   (".pdf".toList, "application/pdf"), (".zip".toList, "application/zip")]

/-- Python `os.path.splitext`-style extension of a path: the suffix of the final
path segment starting at its last dot, except that the leading dots of the
segment never start an extension (so `.bashrc` and `dir/file` have none). -/
def extOf (path : List Char) : List Char :=
  let base := (splitOnChar '/' path).getLastD []
  let stem := base.dropWhile (fun c => c == '.')
  if '.' ∈ stem then
    '.' :: (stem.reverse.takeWhile (fun c => c != '.')).reverse
  else []

/-- Python `mimetypes.guess_type(path)`, first component: look the lowercased
extension up in the types table; `none` models Python's `None`. -/
def guess_type (path : String) : Option String :=
  types_map.lookup ((extOf path.toList).map Char.toLower)

/-- Function `path_to_attachment_components` (main.py 58-73).  The function can
never return: when the type guess is `None`, `ctype.split('/', 1)` raises
`AttributeError`; otherwise the split succeeds but the next line
`data = path_to_bytes(path, project)` evaluates the undefined name
`project` and raises `NameError` before any file is opened. -/
def path_to_attachment_components (path : String) :
    Except PyError (List Nat × String × String × String) :=
  match guess_type path with
  | none => .error (.attributeError "NoneType object has no attribute split")
  | some _ctype => .error (.nameError "project")

/-- Method `Email.add_attachment_from_path` (main.py 195-206): delegate to
`path_to_attachment_components`, then to `add_attachment` — so any
exception from the helper propagates and nothing is attached. -/
def Email.add_attachment_from_path (self : Email) (path : String) :
    Except PyError Email :=
  match path_to_attachment_components path with
  | .error e => .error e
  | .ok comps => .ok (self.add_attachment comps.1 comps.2.1 comps.2.2.1 comps.2.2.2)

/-! ## The transport client -/

/-- Constructor `EmailClient.__init__` (main.py 86-101): credentials and endpoint,
held immutably. -/
structure EmailClient where
  login : String
  password : String
  host : String
  port : Nat
deriving DecidableEq, Repr

/-- The arguments `EmailClient.send` hands to `smtplib.SMTP.sendmail`. -/
structure SendmailArgs where
  from_addr : String
  to_addrs : List (List Char)
deriving DecidableEq, Repr

/-- The pure argument computation inside `EmailClient.send`
(main.py 129-132), between authentication and the `sendmail` call:
`from_addr` falls back to the message's `From` header; `to_emails` splits
the `To` and `Cc` header values on commas and drops falsy (empty) entries;
and line 131 rebinds `to_addrs` to the parsed entries unconditionally —
the `to_addrs` parameter of `send` is never read. -/
def EmailClient.send_args (_self : EmailClient) (msg : Email)
    (from_addr : Option String) (to_addrs : Option (List (List Char))) :
    SendmailArgs :=
  let from_addr := match from_addr with | some f => f | none => msg.from_addr
  let to_emails :=
    ((splitOnChar ',' msg.to_addr.toList) ++ (splitOnChar ',' msg.cc.toList)).filter
      (fun s => !s.isEmpty)
  let to_addrs := to_emails.map parse_email_addr
  { from_addr := from_addr, to_addrs := to_addrs }

/-! ## Lemmas about `splitOnChar` -/

theorem splitOnChar_ne_nil (sep : Char) (s : List Char) : splitOnChar sep s ≠ [] := by
  induction s with
  | nil => simp [splitOnChar]
  | cons c rest ih =>
    cases h : splitOnChar sep rest with
    | nil => exact absurd h ih
    | cons t ts =>
      by_cases hc : c = sep <;> simp [splitOnChar, h, hc]

theorem splitOnChar_length_two {sep : Char} {s : List Char} (hmem : sep ∈ s) :
    2 ≤ (splitOnChar sep s).length := by
  induction s with
  | nil => simp at hmem
  | cons c rest ih =>
    cases h : splitOnChar sep rest with
    | nil => exact absurd h (splitOnChar_ne_nil sep rest)
    | cons t ts =>
      by_cases hc : c = sep
      · simp [splitOnChar, h, hc]
      · have hrest : sep ∈ rest := by
          rcases List.mem_cons.mp hmem with h1 | h1
          · exact absurd h1.symm hc
          · exact h1
        have := ih hrest
        rw [h] at this
        simp only [List.length_cons] at this
        simp [splitOnChar, h, hc]
        omega

theorem not_mem_of_mem_splitOnChar (sep : Char) (s : List Char) :
    ∀ t ∈ splitOnChar sep s, sep ∉ t := by
  induction s with
  | nil =>
    intro t ht
    simp [splitOnChar] at ht
    simp [ht]
  | cons c rest ih =>
    intro t ht
    cases h : splitOnChar sep rest with
    | nil => exact absurd h (splitOnChar_ne_nil sep rest)
    | cons t0 ts =>
      rw [h] at ih
      by_cases hc : c = sep
      · simp only [splitOnChar, h, if_pos hc] at ht
        rcases List.mem_cons.mp ht with h1 | h1
        · simp [h1]
        · exact ih t h1
      · simp only [splitOnChar, h, if_neg hc] at ht
        rcases List.mem_cons.mp ht with h1 | h1
        · subst h1
          intro hsep
          rcases List.mem_cons.mp hsep with h2 | h2
          · exact hc h2.symm
          · exact ih t0 (List.mem_cons_self t0 ts) h2
        · exact ih t (List.mem_cons_of_mem t0 h1)

theorem subset_of_mem_splitOnChar (sep : Char) (s : List Char) :
    ∀ t ∈ splitOnChar sep s, ∀ c ∈ t, c ∈ s := by
  induction s with
  | nil =>
    intro t ht
    simp [splitOnChar] at ht
    simp [ht]
  | cons d rest ih =>
    intro t ht c hc
    cases h : splitOnChar sep rest with
    | nil => exact absurd h (splitOnChar_ne_nil sep rest)
    | cons t0 ts =>
      rw [h] at ih
      by_cases hd : d = sep
      · simp only [splitOnChar, h, if_pos hd] at ht
        rcases List.mem_cons.mp ht with h1 | h1
        · simp [h1] at hc
        · exact List.mem_cons_of_mem d (ih t h1 c hc)
      · simp only [splitOnChar, h, if_neg hd] at ht
        rcases List.mem_cons.mp ht with h1 | h1
        · subst h1
          rcases List.mem_cons.mp hc with h2 | h2
          · simp [h2]
          · exact List.mem_cons_of_mem d (ih t0 (List.mem_cons_self t0 ts) c h2)
        · exact List.mem_cons_of_mem d (ih t (List.mem_cons_of_mem t0 h1) c hc)

theorem getElem?_getD_mem {α : Type} {l : List α} {n : Nat} {d : α} (h : n < l.length) :
    (l[n]?).getD d ∈ l := by
  rw [List.getElem?_eq_getElem h]
  exact List.getElem_mem h

theorem headD_mem {α : Type} {l : List α} {d : α} (h : l ≠ []) : l.headD d ∈ l := by
  cases l with
  | nil => exact absurd rfl h
  | cons a as => simp

/-- The result of `parse_email_addr` never contains `<`: either the input had
no `<`, or the result is carved out of the piece between the first two `<`
occurrences. -/
theorem lt_not_mem_parse_email_addr (email : List Char) :
    '<' ∉ parse_email_addr email := by
  unfold parse_email_addr
  by_cases h : '<' ∈ email
  · rw [if_pos h]
    intro hmem
    have hx := mem_stripChars (mem_stripChars hmem)
    have hylen : 2 ≤ (splitOnChar '<' email).length := splitOnChar_length_two h
    have hymem : ((splitOnChar '<' email)[1]?).getD [] ∈ splitOnChar '<' email :=
      getElem?_getD_mem (by omega)
    have hynotin : '<' ∉ ((splitOnChar '<' email)[1]?).getD [] :=
      not_mem_of_mem_splitOnChar '<' email _ hymem
    have hxmem :
        (splitOnChar '>' (((splitOnChar '<' email)[1]?).getD [])).headD []
          ∈ splitOnChar '>' (((splitOnChar '<' email)[1]?).getD []) :=
      headD_mem (splitOnChar_ne_nil _ _)
    exact hynotin (subset_of_mem_splitOnChar '>' _ _ hxmem '<' hx)
  · rw [if_neg h]
    intro hmem
    exact h (mem_stripChars hmem)

/-- Function `parse_email_addr` always returns an already-stripped string. -/
theorem stripChars_parse_email_addr (email : List Char) :
    stripChars (parse_email_addr email) = parse_email_addr email := by
  unfold parse_email_addr
  by_cases h : '<' ∈ email <;> simp [h, stripChars_idem]

theorem parse_email_addr_idem (email : List Char) :
    parse_email_addr (parse_email_addr email) = parse_email_addr email := by
  have h1 := lt_not_mem_parse_email_addr email
  conv_lhs => rw [parse_email_addr.eq_def]
  rw [if_neg h1]
  exact stripChars_parse_email_addr email

/-- The `getD`/`headD` indexing in `parse_email_addr` agrees with Python's
raising indexing: the fallible version never raises and returns the same
string. -/
theorem parse_email_addr_chk_eq (email : List Char) :
    parse_email_addr_chk email = .ok (parse_email_addr email) := by
  unfold parse_email_addr_chk parse_email_addr
  by_cases h : '<' ∈ email
  · rw [if_pos h, if_pos h]
    have hlt : 1 < (splitOnChar '<' email).length := by
      have := splitOnChar_length_two h
      omega
    simp only [List.getElem?_eq_getElem hlt, Option.getD_some]
    cases hsp : splitOnChar '>' (splitOnChar '<' email)[1] with
    | nil => exact absurd hsp (splitOnChar_ne_nil _ _)
    | cons t ts => simp [hsp]
  · rw [if_neg h, if_neg h]

/-! ## Base64 round-trip -/

theorem charToSextet_sextetToChar : ∀ n, n < 64 → charToSextet (sextetToChar n) = n := by
  decide

theorem sextetToChar_mem (n : Nat) : sextetToChar n ∈ b64Alphabet := by
  by_cases h : n < b64Alphabet.length
  · unfold sextetToChar
    rw [List.getD_eq_getElem?_getD, List.getElem?_eq_getElem h]
    exact List.getElem_mem h
  · unfold sextetToChar
    rw [List.getD_eq_getElem?_getD, List.getElem?_eq_none (by omega)]
    decide

theorem sextetToChar_ne_eq (n : Nat) : sextetToChar n ≠ '=' := by
  intro hc
  have h := sextetToChar_mem n
  rw [hc] at h
  exact absurd h (by decide)

theorem sextetToChar_ne_newline (n : Nat) : sextetToChar n ≠ '\n' := by
  intro hc
  have h := sextetToChar_mem n
  rw [hc] at h
  exact absurd h (by decide)

theorem b64encodeRaw_no_newline (bs : List Nat) : ∀ c ∈ b64encodeRaw bs, c ≠ '\n' := by
  match bs with
  | [] =>
    intro c hc
    simp [b64encodeRaw] at hc
  | [a] =>
    intro c hc
    simp only [b64encodeRaw, List.mem_cons, List.not_mem_nil, or_false] at hc
    rcases hc with h | h | h | h <;> subst h
    · exact sextetToChar_ne_newline _
    · exact sextetToChar_ne_newline _
    · decide
    · decide
  | [a, b] =>
    intro c hc
    simp only [b64encodeRaw, List.mem_cons, List.not_mem_nil, or_false] at hc
    rcases hc with h | h | h | h <;> subst h
    · exact sextetToChar_ne_newline _
    · exact sextetToChar_ne_newline _
    · exact sextetToChar_ne_newline _
    · decide
  | a :: b :: d :: rest =>
    intro c hc
    simp only [b64encodeRaw, List.mem_cons] at hc
    rcases hc with h | h | h | h | h
    · subst h; exact sextetToChar_ne_newline _
    · subst h; exact sextetToChar_ne_newline _
    · subst h; exact sextetToChar_ne_newline _
    · subst h; exact sextetToChar_ne_newline _
    · exact b64encodeRaw_no_newline rest c h

theorem filter_wrapLines (cs : List Char) (h : ∀ c ∈ cs, c ≠ '\n') :
    (wrapLines cs).filter (fun c => c != '\n') = cs := by
  by_cases hnil : cs = []
  · subst hnil
    rw [wrapLines]
    simp
  · rw [wrapLines, dif_neg hnil]
    rw [List.filter_append, List.filter_cons]
    have htake : (cs.take 76).filter (fun c => c != '\n') = cs.take 76 :=
      List.filter_eq_self.mpr (fun c hc => by
        simpa using h c (List.take_subset 76 cs hc))
    have hdrop := filter_wrapLines (cs.drop 76) (fun c hc => h c (List.drop_subset 76 cs hc))
    simp only [htake, hdrop]
    simp [List.take_append_drop]
termination_by cs.length
decreasing_by
  have hpos : 0 < cs.length := List.length_pos.mpr hnil
  simp only [List.length_drop]
  omega

theorem b64decode_encodeRaw (bs : List Nat) (h : ∀ x ∈ bs, x < 256) :
    b64decode (b64encodeRaw bs) = bs := by
  match bs with
  | [] => rfl
  | [a] =>
    have ha : a < 256 := h a (by simp)
    simp only [b64encodeRaw, b64decode, if_true]
    rw [charToSextet_sextetToChar _ (by omega), charToSextet_sextetToChar _ (by omega)]
    have h1 : a / 4 * 4 + a % 4 * 16 / 16 = a := by omega
    rw [h1]
  | [a, b] =>
    have ha : a < 256 := h a (by simp)
    have hb : b < 256 := h b (by simp)
    simp only [b64encodeRaw, b64decode, if_true,
      if_neg (sextetToChar_ne_eq (b % 16 * 4))]
    rw [charToSextet_sextetToChar _ (by omega), charToSextet_sextetToChar _ (by omega),
      charToSextet_sextetToChar _ (by omega)]
    have h1 : a / 4 * 4 + (a % 4 * 16 + b / 16) / 16 = a := by omega
    have h2 : (a % 4 * 16 + b / 16) % 16 * 16 + b % 16 * 4 / 4 = b := by omega
    rw [h1, h2]
  | a :: b :: d :: rest =>
    have ha : a < 256 := h a (by simp)
    have hb : b < 256 := h b (by simp)
    have hd : d < 256 := h d (by simp)
    have ih := b64decode_encodeRaw rest (fun x hx => h x (by simp [hx]))
    simp only [b64encodeRaw, b64decode, if_true,
      if_neg (sextetToChar_ne_eq (b % 16 * 4 + d / 64)),
      if_neg (sextetToChar_ne_eq (d % 64))]
    rw [charToSextet_sextetToChar _ (by omega), charToSextet_sextetToChar _ (by omega),
      charToSextet_sextetToChar _ (by omega), charToSextet_sextetToChar _ (by omega)]
    rw [ih]
    have h1 : a / 4 * 4 + (a % 4 * 16 + b / 16) / 16 = a := by omega
    have h2 : (a % 4 * 16 + b / 16) % 16 * 16 + (b % 16 * 4 + d / 64) / 4 = b := by omega
    have h3 : (b % 16 * 4 + d / 64) % 4 * 64 + d % 64 = d := by omega
    rw [h1, h2, h3]

/-- Decoding `base64.encodebytes` output: drop the line breaks, then
base64-decode; this recovers any byte sequence exactly. -/
theorem b64decode_encodebytes (data : List Nat) (h : ∀ x ∈ data, x < 256) :
    b64decode ((encodebytes data).filter (fun c => c != '\n')) = data := by
  unfold encodebytes
  rw [filter_wrapLines _ (b64encodeRaw_no_newline data)]
  exact b64decode_encodeRaw data h

/-! ## Derived message operations used by the claims -/

/-- The payload text a part contributes to the serialized message: the body
text for the text part, the base64 text for an attachment. -/
def partPayload : MIMEPart → List Char
  | .text body _ _ => body.toList
  | .attachment _ _ payload _ => payload

/-- Whether a part is the text body part. -/
def isTextPart : MIMEPart → Bool
  | .text _ _ _ => true
  | .attachment _ _ _ _ => false

/-- The part `add_attachment` builds from one
(data, file_name, maintype, subtype) quadruple. -/
def attachmentPart (a : List Nat × String × String × String) : MIMEPart :=
  .attachment a.2.2.1 a.2.2.2 (encodebytes a.1) a.2.1

/-- A sequence of `add_attachment` calls, in order. -/
def addAttachments (e : Email) (atts : List (List Nat × String × String × String)) : Email :=
  atts.foldl (fun acc a => acc.add_attachment a.1 a.2.1 a.2.2.1 a.2.2.2) e

theorem addAttachments_parts (atts : List (List Nat × String × String × String))
    (e : Email) :
    (addAttachments e atts).parts = e.parts ++ atts.map attachmentPart := by
  induction atts generalizing e with
  | nil => simp [addAttachments]
  | cons a as ih =>
    show (addAttachments (e.add_attachment a.1 a.2.1 a.2.2.1 a.2.2.2) as).parts = _
    rw [ih]
    simp [Email.add_attachment, attachmentPart]

/-! ## Concrete fixtures for the closed evaluation theorems -/

/-- A transport client; its credentials play no role in the pure
argument computation. -/
def clientC : EmailClient :=
  { login := "sender@example.com", password := "hunter2",
    host := "smtp.example.com", port := 587 }

/-- A message with one To recipient and an empty Cc. -/
def msgOneTo : Email :=
  Email.init "sender@example.com" (.inl "a@b.com") "Subject" "Body" "plain"
    (.inl "") "us-ascii"

/-- The spec's recipient-resolution example: `to="a@x.com, b@y.com"`,
`cc=""`. -/
def msgTwoTo : Email :=
  Email.init "sender@example.com" (.inl "a@x.com, b@y.com") "Subject" "Body" "plain"
    (.inl "") "us-ascii"

/-! ## The claims -/

/-- C1: the claim says an explicit `to_addrs` argument to `send` is the
recipient list used for delivery.  The code does not do this: line 131
rebinds `to_addrs` from the message's To/Cc headers unconditionally, so
with an explicit `to_addrs = ["c@d.com"]` on a message whose To header is
`a@b.com`, the arguments handed to `sendmail` carry `["a@b.com"]` — the
explicit argument is silently discarded (contrast `from_addr`, which is
honoured on line 129). -/
theorem send_ignores_explicit_to_addrs :
    (clientC.send_args msgOneTo none (some ["c@d.com".toList])).to_addrs
        = ["a@b.com".toList]
      ∧ (["a@b.com".toList] : List (List Char)) ≠ ["c@d.com".toList] := by
  constructor
  · decide
  · decide

/-- C2 counterexample: the claim says every path fails with an
undefined-name error, but on a path whose extension yields no MIME guess
(`file.xyz`) the call dies earlier, at `ctype.split('/', 1)` with `ctype =
None` — an attribute error, not an undefined-name error. -/
theorem path_components_xyz_not_nameError :
    ¬ ∃ n, path_to_attachment_components "file.xyz"
        = Except.error (PyError.nameError n) := by
  rintro ⟨n, hn⟩
  have h2 : path_to_attachment_components "file.xyz"
      = Except.error (PyError.attributeError "NoneType object has no attribute split") := by
    rfl
  rw [h2] at hn
  simp at hn

/-- C2 (amended): `add_attachment_from_path` fails on every path and never
appends an attachment; the failure is the undefined-name error on
`project` exactly when the extension yields a MIME-type guess, the earlier
attribute error on the `None` guess otherwise. -/
theorem add_attachment_from_path_always_fails (e : Email) (path : String) :
    (∃ err, e.add_attachment_from_path path = .error err) ∧
      (guess_type path ≠ none →
        e.add_attachment_from_path path = .error (.nameError "project")) := by
  cases hg : guess_type path with
  | none =>
    have h1 : path_to_attachment_components path
        = .error (.attributeError "NoneType object has no attribute split") := by
      unfold path_to_attachment_components
      rw [hg]
    have h2 : e.add_attachment_from_path path
        = .error (.attributeError "NoneType object has no attribute split") := by
      unfold Email.add_attachment_from_path
      rw [h1]
    exact ⟨⟨_, h2⟩, fun hne => absurd rfl hne⟩
  | some ctype =>
    have h1 : path_to_attachment_components path = .error (.nameError "project") := by
      unfold path_to_attachment_components
      rw [hg]
    have h2 : e.add_attachment_from_path path = .error (.nameError "project") := by
      unfold Email.add_attachment_from_path
      rw [h1]
    exact ⟨⟨_, h2⟩, fun _ => h2⟩

/-- C2 witness: on a recognized extension the failure is the
undefined-name error on `project`. -/
theorem add_attachment_from_path_always_fails_witness :
    msgOneTo.add_attachment_from_path "report.csv" = .error (.nameError "project") :=
  (add_attachment_from_path_always_fails msgOneTo "report.csv").2 (by decide)

/-- C3 counterexample: on a path with no MIME-type guess the call does not
fall back to `application/octet-stream` — it fails, with the attribute
error raised by `ctype.split` on the `None` guess. -/
theorem no_guess_no_fallback :
    msgOneTo.add_attachment_from_path "file.xyz"
      = .error (.attributeError "NoneType object has no attribute split") := by
  rfl

/-- C3 (amended): for every path whose extension yields no MIME-type
guess, `add_attachment_from_path` fails with the attribute error on the
missing guess; the `application/octet-stream` pair exists only as default
arguments of `add_attachment`, which this code path never reaches. -/
theorem no_guess_attribute_error (e : Email) (path : String)
    (h : guess_type path = none) :
    e.add_attachment_from_path path
      = .error (.attributeError "NoneType object has no attribute split") := by
  have h1 : path_to_attachment_components path
      = .error (.attributeError "NoneType object has no attribute split") := by
    unfold path_to_attachment_components
    rw [h]
  unfold Email.add_attachment_from_path
  rw [h1]

/-- C3 witness. -/
theorem no_guess_attribute_error_witness :
    msgTwoTo.add_attachment_from_path "archive.dat"
      = .error (.attributeError "NoneType object has no attribute split") :=
  no_guess_attribute_error msgTwoTo "archive.dat" (by decide)

/-- C4: the claim says a `.csv` path gets attached with a text/CSV type
and the base file name.  The type guess indeed yields `text/csv`, but the
attachment is never appended: `path_to_attachment_components` raises the
undefined-name error on `project` first, on every input. -/
theorem csv_attachment_never_appended :
    msgOneTo.add_attachment_from_path "dir/data.csv" = .error (.nameError "project")
      ∧ guess_type "dir/data.csv" = some "text/csv" := by
  constructor
  · rfl
  · rfl

/-- C5: `add_attachment` followed by serialization embeds the payload as
base64: the new last part's payload text appears verbatim (as a suffix) in
that part's serialized form, and stripping the line breaks and
base64-decoding it recovers the original bytes exactly, for every byte
sequence. -/
theorem add_attachment_serialize_roundtrip (e : Email) (data : List Nat)
    (file_name maintype subtype : String) (h : ∀ x ∈ data, x < 256) :
    ∃ p : MIMEPart,
      (e.add_attachment data file_name maintype subtype).parts.getLast? = some p
        ∧ partPayload p <:+ serializePart p
        ∧ b64decode ((partPayload p).filter (fun c => c != '\n')) = data := by
  refine ⟨.attachment maintype subtype (encodebytes data) file_name, ?_, ?_, ?_⟩
  · unfold Email.add_attachment
    simp [List.getLast?_concat]
  · show encodebytes data <:+ serializePart _
    refine ⟨renderHeader "Content-Type" (maintype ++ "/" ++ subtype) ++
      renderHeader "Content-Transfer-Encoding" "base64" ++
      renderHeader "Content-Disposition" ("attachment; filename=\"" ++ file_name ++ "\"") ++
      ['\n'], ?_⟩
    simp [serializePart]
  · exact b64decode_encodebytes data h

/-- C5 witness: the round trip at a concrete payload (including a byte
that base64-pads and a 0x0a byte). -/
theorem add_attachment_serialize_roundtrip_witness :
    (∀ x ∈ [0, 77, 255, 10], x < 256) ∧
      ∃ p : MIMEPart,
        (msgOneTo.add_attachment [0, 77, 255, 10] "f.bin" "application"
            "octet-stream").parts.getLast? = some p
          ∧ partPayload p <:+ serializePart p
          ∧ b64decode ((partPayload p).filter (fun c => c != '\n')) = [0, 77, 255, 10] :=
  ⟨by decide,
    add_attachment_serialize_roundtrip msgOneTo [0, 77, 255, 10] "f.bin" "application"
      "octet-stream" (by decide)⟩

/-- C6: a message constructed by `__init__` and extended by any sequence
of `add_attachment` calls consists of exactly the one text body part
followed by the attachment parts in insertion order. -/
theorem message_parts_invariant (from_addr : String) (to_addr : String ⊕ List String)
    (subject body body_type : String) (cc : String ⊕ List String) (body_encoding : String)
    (atts : List (List Nat × String × String × String)) :
    (addAttachments (Email.init from_addr to_addr subject body body_type cc body_encoding)
          atts).parts
        = MIMEPart.text body body_type body_encoding :: atts.map attachmentPart
      ∧ ((addAttachments (Email.init from_addr to_addr subject body body_type cc body_encoding)
          atts).parts.filter isTextPart).length = 1 := by
  have hparts := addAttachments_parts atts
    (Email.init from_addr to_addr subject body body_type cc body_encoding)
  have hone : ((MIMEPart.text body body_type body_encoding :: atts.map attachmentPart).filter
      isTextPart).length = 1 := by
    rw [List.filter_cons]
    have h1 : isTextPart (MIMEPart.text body body_type body_encoding) = true := rfl
    rw [List.filter_map]
    have h2 : (isTextPart ∘ attachmentPart) = fun _ => false := by
      funext a
      rfl
    simp [h1, h2]
  exact ⟨hparts, by rw [hparts]; exact hone⟩

/-- C7: `parse_email_addr` extracts the bracketed address from the
header-display form, is the identity up to stripping on inputs without
`<`, and is idempotent on every input. -/
theorem parse_email_addr_spec :
    parse_email_addr "Jane Doe <jane@example.com>".toList = "jane@example.com".toList
      ∧ parse_email_addr "jane@example.com".toList = "jane@example.com".toList
      ∧ (∀ s : List Char, '<' ∉ s → parse_email_addr s = stripChars s)
      ∧ ∀ s : List Char, parse_email_addr (parse_email_addr s) = parse_email_addr s := by
  refine ⟨by decide, by decide, fun s hs => ?_, parse_email_addr_idem⟩
  unfold parse_email_addr
  rw [if_neg hs]

/-- C7 witness: the no-bracket clause at a concrete padded address. -/
theorem parse_email_addr_spec_witness :
    parse_email_addr "  jane@example.com  ".toList
      = stripChars "  jane@example.com  ".toList :=
  parse_email_addr_spec.2.2.1 _ (by decide)

/-- C8: with `to="a@x.com, b@y.com"` and `cc=""`, `send` resolves the
recipients to exactly `["a@x.com", "b@y.com"]` — the empty piece from
splitting the empty Cc is discarded, and the space after the comma is
stripped. -/
theorem send_resolves_two_recipients :
    (clientC.send_args msgTwoTo none none).to_addrs
      = ["a@x.com".toList, "b@y.com".toList] := by
  decide

/-- C9: `add_attachment` only appends: the four headers are unchanged, the
new part list is the old one with exactly one attachment part appended,
and every previously present part survives unchanged in place. -/
theorem add_attachment_frame (e : Email) (data : List Nat)
    (file_name maintype subtype : String) :
    (e.add_attachment data file_name maintype subtype).subject = e.subject
      ∧ (e.add_attachment data file_name maintype subtype).from_addr = e.from_addr
      ∧ (e.add_attachment data file_name maintype subtype).to_addr = e.to_addr
      ∧ (e.add_attachment data file_name maintype subtype).cc = e.cc
      ∧ (e.add_attachment data file_name maintype subtype).parts
          = e.parts ++ [MIMEPart.attachment maintype subtype (encodebytes data) file_name]
      ∧ (e.add_attachment data file_name maintype subtype).parts.take e.parts.length
          = e.parts := by
  refine ⟨rfl, rfl, rfl, rfl, rfl, ?_⟩
  show (e.parts ++ [MIMEPart.attachment maintype subtype (encodebytes data)
    file_name]).take e.parts.length = e.parts
  exact List.take_left e.parts _

/-- C10: `parse_email_addr` is total — the version with raising indexing
never raises and agrees with the embedding on every input, and the result
carries no surrounding whitespace (it is a fixed point of `strip`). -/
theorem parse_email_addr_total (s : List Char) :
    parse_email_addr_chk s = .ok (parse_email_addr s)
      ∧ stripChars (parse_email_addr s) = parse_email_addr s :=
  ⟨parse_email_addr_chk_eq s, stripChars_parse_email_addr s⟩

end SimpleEmail
